import Mathlib

/-!
Verification of the NVD CPE/CVE reconciliation engine of the network_tools
repository (cpe.py, cve.py, vulnid.py) against its natural-language
specification.  Python strings are embedded as `List Char` (with `String`
wrappers), database tables as Lean lists of row structures, SQL statements
as the corresponding list operations, and exceptions as `Option`/`Except`.
-/

set_option maxHeartbeats 1000000
set_option linter.unnecessarySimpa false

namespace NetworkTools

/-! ### Python string primitives -/

/-- Characters removed by Python str.strip() on ASCII input. -/
def isPySpace (c : Char) : Bool :=
  c = ' ' || c = '\t' || c = '\n' || c = '\r' || c = '\x0b' || c = '\x0c'

/-- Remove trailing whitespace characters. -/
def dropTrailingSpace : List Char → List Char
  | [] => []
  | c :: rest =>
    let r := dropTrailingSpace rest
    if r = [] ∧ isPySpace c then [] else c :: r

/-- Python str.strip(): remove leading and trailing whitespace. -/
def stripL (l : List Char) : List Char :=
  dropTrailingSpace (l.dropWhile isPySpace)

/-- Python str.split(":"): split at every colon; never returns the empty list. -/
def splitColon : List Char → List (List Char)
  | [] => [[]]
  | c :: rest =>
    let r := splitColon rest
    if c = ':' then [] :: r
    else (c :: r.headD []) :: r.tail

/-- Splitter for the compiled pattern (?<!\\)\: — split at every colon not
    immediately preceded by a backslash.  The first argument is the character
    immediately before the current position in the original string. -/
def splitUnescAux : Option Char → List Char → List (List Char)
  | _, [] => [[]]
  | p, c :: rest =>
    let r := splitUnescAux (some c) rest
    if c = ':' ∧ p ≠ some '\\' then [] :: r
    else (c :: r.headD []) :: r.tail

/-- re.split of the pattern (?<!\\)\: over a whole string. -/
def splitUnescL (l : List Char) : List (List Char) :=
  splitUnescAux none l

/-- Python ":".join over a list of character lists. -/
def joinColon : List (List Char) → List Char
  | [] => []
  | [f] => f
  | f :: g :: rest => f ++ ':' :: joinColon (g :: rest)

/-- Membership test of the Python hex-digit string "0123456789abcdefABCDEF". -/
def isHexDigitPy (c : Char) : Bool :=
  "0123456789abcdefABCDEF".toList.contains c

/-- Value of one hexadecimal digit, as used by int(h, 16). -/
def hexDigitVal (c : Char) : Nat :=
  if c.isDigit then c.toNat - 48
  else if 'a' ≤ c ∧ c ≤ 'f' then c.toNat - 87
  else c.toNat - 55

/-- int(h, 16) over the digit list h. -/
def hexListVal (h : List Char) : Nat :=
  h.foldl (fun a c => a * 16 + hexDigitVal c) 0

/-! ### Definitions shared verbatim by cpe.py and vulnid.py -/

/-- get_cpe_version (identical in cpe.py and vulnid.py): classify a name by
    its literal leading characters; none models the ValueError. -/
def get_cpe_versionL (cpe : List Char) : Option String :=
  if "cpe:/".toList.isPrefixOf cpe then some "2.2"
  else if "cpe:2.3:".toList.isPrefixOf cpe then some "2.3"
  else none

namespace Vulnid

/-- vulnid.py cpe22_unquote, inner loop (the revision whose loop bound is
    `while i < len(s) - 1`, so every character is read in bounds).
    As in the source, h = s[i+1 : i+2] is a slice of at most ONE character:
    the test `len(h) > 0 and h[0] == "%"` is the match on a leading '%' of
    the remainder (it skips that character, i += 1), and the branch guarded
    by len(h) != 2 that would decode a %XX escape is unreachable because h
    never has two characters; it is transcribed anyway. -/
def cpe22_unquoteL : List Char → List Char
  | [] => []
  | c :: rest =>
    if c = '\\' then '\\' :: '\\' :: cpe22_unquoteL rest
    else if c ≠ '%' then c :: cpe22_unquoteL rest
    else
      match rest with
      | '%' :: rest2 => '%' :: cpe22_unquoteL rest2
      | r =>
        let h := r.take 1
        if h.length ≠ 2 ∨ ¬ isHexDigitPy (h.headD ' ') ∨ ¬ isHexDigitPy (h.getD 1 ' ') then
          '%' :: cpe22_unquoteL r
        else
          '\\' :: Char.ofNat (hexListVal h) :: cpe22_unquoteL r

/-- vulnid.py cpe22_unquote: `if not s: return s` then the character loop. -/
def cpe22_unquote (s : String) : String :=
  if s = "" then s else String.mk (cpe22_unquoteL s.toList)

/-- vulnid.py parse_cpe, 2.2 branch: split on ":", strip and percent-decode
    each component, then pad with "*" when fewer than 11 fields came out. -/
def parse22L (body : List Char) : List (List Char) :=
  let parsed := (splitColon body).map (fun x => cpe22_unquoteL (stripL x))
  if parsed.length < 11 then parsed ++ List.replicate (11 - parsed.length) ['*']
  else parsed

/-- parse_cpe, 2.3 branch (identical in cpe.py and vulnid.py): split on
    unescaped colons, strip each field, and require exactly 11 fields
    (none models the ValueError). -/
def parse23L (body : List Char) : Option (List (List Char)) :=
  let parsed := (splitUnescL body).map stripL
  if parsed.length = 11 then some parsed else none

/-- vulnid.py parse_cpe over the characters of the name. -/
def parse_cpeL (cpe : List Char) : Option (List (List Char)) :=
  match get_cpe_versionL cpe with
  | none => none
  | some v =>
    if v = "2.2" then some (parse22L (cpe.drop 5))
    else if v = "2.3" then parse23L (cpe.drop 8)
    else none

/-- vulnid.py parse_cpe. -/
def parse_cpe (cpe : String) : Option (List String) :=
  (parse_cpeL cpe.toList).map (fun l => l.map String.mk)

/-- Field serializer x.replace(":", "\\:") used by unparse_cpe23. -/
def escapeColons : List Char → List Char
  | [] => []
  | c :: rest =>
    if c = ':' then '\\' :: ':' :: escapeColons rest
    else c :: escapeColons rest

/-- unparse_cpe23 (identical in cpe.py and vulnid.py): join the fields with
    ":" after escaping embedded colons, under the "cpe:2.3:" lead. -/
def unparse_cpe23L (parsed : List (List Char)) : List Char :=
  "cpe:2.3:".toList ++ joinColon (parsed.map escapeColons)

/-- unparse_cpe23 over strings. -/
def unparse_cpe23 (parsed : List String) : String :=
  String.mk (unparse_cpe23L (parsed.map String.toList))

/-- cpe22to23(cpe) = unparse_cpe23(parse_cpe(cpe)). -/
def cpe22to23L (cpe : List Char) : Option (List Char) :=
  (parse_cpeL cpe).map unparse_cpe23L

/-- cpe22to23 over strings. -/
def cpe22to23 (cpe : String) : Option String :=
  (cpe22to23L cpe.toList).map String.mk

end Vulnid

namespace Cpe

/-- cpe.py cpe22_unquote, inner loop.  In this revision the loop runs
    `while i < len(s)` and then reads s[i] after incrementing i, so once the
    characters are exhausted the next iteration reads one position past the
    end of the string and raises IndexError; none models that exception. -/
def cpe22_unquoteL : List Char → Option (List Char)
  | [] => none
  | c :: rest =>
    if c = '\\' then (cpe22_unquoteL rest).map (fun r => '\\' :: '\\' :: r)
    else if c ≠ '%' then (cpe22_unquoteL rest).map (fun r => c :: r)
    else
      match rest with
      | '%' :: rest2 => (cpe22_unquoteL rest2).map (fun r => '%' :: r)
      | rst =>
        let h := rst.take 1
        if h.length ≠ 2 ∨ ¬ isHexDigitPy (h.headD ' ') ∨ ¬ isHexDigitPy (h.getD 1 ' ') then
          (cpe22_unquoteL rst).map (fun r => '%' :: r)
        else
          (cpe22_unquoteL rst).map (fun r => '\\' :: Char.ofNat (hexListVal h) :: r)

/-- cpe.py cpe22_unquote: empty input is returned unchanged, any other input
    reaches the out-of-bounds read. -/
def cpe22_unquote (s : String) : Option String :=
  if s = "" then some s else (cpe22_unquoteL s.toList).map String.mk

/-- cpe.py parse_cpe, 2.2 branch: as vulnid.py but with the IndexError of
    this revision's cpe22_unquote propagating. -/
def parse22L (body : List Char) : Option (List (List Char)) :=
  match (splitColon body).mapM (fun x => cpe22_unquoteL (stripL x)) with
  | none => none
  | some parsed =>
    some (if parsed.length < 11 then parsed ++ List.replicate (11 - parsed.length) ['*']
          else parsed)

/-- cpe.py parse_cpe over the characters of the name. -/
def parse_cpeL (cpe : List Char) : Option (List (List Char)) :=
  match get_cpe_versionL cpe with
  | none => none
  | some v =>
    if v = "2.2" then parse22L (cpe.drop 5)
    else if v = "2.3" then Vulnid.parse23L (cpe.drop 8)
    else none

/-- cpe.py parse_cpe. -/
def parse_cpe (cpe : String) : Option (List String) :=
  (parse_cpeL cpe.toList).map (fun l => l.map String.mk)

/-! ### cpe.py: the `cpe` table and the resolve query -/

/-- One row of the `cpe` table of cpe.py (schema in CPEDB.__initialize). -/
structure CpeRow where
  name23 : String
  name22 : String
  title : String
  deprecated : Bool
  part : String
  vendor : String
  product : String
  version : String
  update : String
  edition : String
  language : String
  sw_edition : String
  target_sw : String
  target_hw : String
  other : String
deriving DecidableEq, Repr

/-- Value of a named structured-field column of a `cpe` row, as referenced by
    the SQL text built in resolve; none models an unknown column name. -/
def columnValue (r : CpeRow) (col : String) : Option String :=
  if col = "part" then some r.part
  else if col = "vendor" then some r.vendor
  else if col = "product" then some r.product
  else if col = "version" then some r.version
  else if col = "update" then some r.update
  else if col = "edition" then some r.edition
  else if col = "language" then some r.language
  else if col = "sw_edition" then some r.sw_edition
  else if col = "target_sw" then some r.target_sw
  else if col = "target_hw" then some r.target_hw
  else if col = "other" then some r.other
  else none

/-- The `name22`/`name23` column selected by "SELECT name%s" % ver. -/
def nameColumn (ver : String) (r : CpeRow) : String :=
  if ver = "22" then r.name22 else r.name23

/-- ver.replace(".", "") — removal of every dot. -/
def removeDots (s : String) : String :=
  String.mk (s.toList.filter (fun c => c ≠ '.'))

/-- The column-name list built in resolve: five columns for a 2.2 query,
    extended by the remaining six for a 2.3 query. -/
def columnsFor (ver : String) : List String :=
  ["part", "vendor", "product", "version", "update"] ++
    (if ver = "23" then
      ["edition", "language", "sw_edition", "target_sw", "target_hw", "other"]
    else [])

/-- cpe.py CPEDB.resolve.  The database is the list of `cpe` rows; the result
    models the set of values returned by the SELECT (as a list of names).
    none models an exception: an invalid CPE name (ValueError from
    get_cpe_version/parse_cpe), an empty OR-group in the generated SQL, or a
    bound-parameter count that does not match the number of placeholders
    (both sqlite3 errors, reachable for 2.2 names whose fields past the
    first five are not all wildcards). -/
def resolve (db : List CpeRow) (cpe : String) (include_deprecated : Bool) :
    Option (List String) :=
  match get_cpe_versionL cpe.toList with
  | none => none
  | some v =>
    let ver := removeDots v
    match Cpe.parse_cpe cpe with
    | none => none
    | some parsed =>
      let params := parsed.filter (fun x => x ≠ "*")
      if params = [] then some [cpe]
      else
        let paramsFull := cpe :: params
        let columns := columnsFor ver
        let subIdx := (List.range columns.length).filter (fun i => parsed.getD i "" ≠ "*")
        if subIdx.length = 0 then none
        else if paramsFull.length ≠ 1 + subIdx.length then none
        else
          some ((db.filter (fun r =>
            (include_deprecated || !r.deprecated) &&
            (nameColumn ver r == cpe ||
             subIdx.all (fun i =>
               columnValue r (columns.getD i "") == some (parsed.getD i ""))))).map
            (nameColumn ver))

end Cpe

namespace Cve

/-! ### cve.py: the CVE store and __load_cve_entry -/

/-- One row of the `cve` table (cve.py SCHEMA). -/
structure CveRow where
  rowid : Nat
  year : Int
  number : Int
  cvss_score : Option String
  cvss_access_vector : Option String
  cvss_access_complexity : Option String
  cvss_authentication : Option String
  cvss_integrity_impact : Option String
  cwe : Option String
  summary : Option String
deriving DecidableEq, Repr

/-- One row of the `cve_cpe_names` table. -/
structure CpeNameRow where
  rowid : Nat
  cpe_name : String
deriving DecidableEq, Repr

/-- One row of the `cve_cpe` cross-reference table. -/
structure CveCpeRow where
  id_cve : Nat
  id_cpe : Nat
deriving DecidableEq, Repr

/-- One row of the `cve_ref_urls` table. -/
structure RefUrlRow where
  rowid : Nat
  url : String
deriving DecidableEq, Repr

/-- One row of the `cve_references` cross-reference table. -/
structure CveRefRow where
  id_cve : Nat
  id_ref : Nat
deriving DecidableEq, Repr

/-- The tables of the CVE store touched by __load_cve_entry. -/
structure CveDb where
  cve : List CveRow
  cve_cpe_names : List CpeNameRow
  cve_cpe : List CveCpeRow
  cve_ref_urls : List RefUrlRow
  cve_references : List CveRefRow
deriving DecidableEq, Repr

/-- The fields extracted from one feed `entry` element by __load_cve_entry
    (XML navigation abstracted away): the (year, number) key parsed from the
    CVE identifier, the optional CVSS block, CWE id and summary, and the
    reference URLs and affected-product CPE names. -/
structure CveEntry where
  year : Int
  number : Int
  cvss_score : Option String
  cvss_access_vector : Option String
  cvss_access_complexity : Option String
  cvss_authentication : Option String
  cvss_integrity_impact : Option String
  cwe : Option String
  summary : Option String
  references : List String
  products : List String
deriving DecidableEq, Repr

/-- Rowid assigned by SQLite to an INTEGER PRIMARY KEY inserted as NULL:
    one more than the largest rowid in use. -/
def nextRowid (ids : List Nat) : Nat :=
  ids.foldl max 0 + 1

/-- summary is not None and summary.startswith("** REJECT **"). -/
def isRejectSummary (summary : Option String) : Bool :=
  match summary with
  | some t => "** REJECT **".toList.isPrefixOf t.toList
  | none => false

/-- DELETE FROM cve WHERE rowid = cve_id, with the ON DELETE CASCADE
    clauses of cve_cpe and cve_references (PRAGMA foreign_keys = ON). -/
def deleteCveCascade (db : CveDb) (cve_id : Nat) : CveDb :=
  { db with
    cve := db.cve.filter (fun r => r.rowid != cve_id)
    cve_cpe := db.cve_cpe.filter (fun l => l.id_cve != cve_id)
    cve_references := db.cve_references.filter (fun l => l.id_cve != cve_id) }

/-- INSERT INTO cve_references VALUES (cve_id, ref_id); the table's
    UNIQUE (id_cve, id_ref) ON CONFLICT IGNORE drops duplicates. -/
def insertCveReference (db : CveDb) (cve_id ref_id : Nat) : CveDb :=
  if db.cve_references.any (fun l => l.id_cve == cve_id && l.id_ref == ref_id) then db
  else { db with cve_references := db.cve_references ++ [⟨cve_id, ref_id⟩] }

/-- INSERT INTO cve_cpe VALUES (cve_id, cpe_id) under ON CONFLICT IGNORE. -/
def insertCveCpe (db : CveDb) (cve_id cpe_id : Nat) : CveDb :=
  if db.cve_cpe.any (fun l => l.id_cve == cve_id && l.id_cpe == cpe_id) then db
  else { db with cve_cpe := db.cve_cpe ++ [⟨cve_id, cpe_id⟩] }

/-- Body of the `for ref in references` loop of __load_cve_entry: look the
    URL up in cve_ref_urls, insert it there if new, then link it. -/
def addReference (cve_id : Nat) (db : CveDb) (ref : String) : CveDb :=
  match db.cve_ref_urls.find? (fun r => r.url == ref) with
  | some row => insertCveReference db cve_id row.rowid
  | none =>
    let ref_id := nextRowid (db.cve_ref_urls.map (fun r => r.rowid))
    insertCveReference
      { db with cve_ref_urls := db.cve_ref_urls ++ [⟨ref_id, ref⟩] } cve_id ref_id

/-- Body of the `for cpe in products` loop of __load_cve_entry. -/
def addProduct (cve_id : Nat) (db : CveDb) (cpe_name : String) : CveDb :=
  match db.cve_cpe_names.find? (fun r => r.cpe_name == cpe_name) with
  | some row => insertCveCpe db cve_id row.rowid
  | none =>
    let cpe_id := nextRowid (db.cve_cpe_names.map (fun r => r.rowid))
    insertCveCpe
      { db with cve_cpe_names := db.cve_cpe_names ++ [⟨cpe_id, cpe_name⟩] } cve_id cpe_id

/-- UPDATE cve SET (mutable fields) WHERE rowid = cve_id. -/
def updateCveRow (db : CveDb) (cve_id : Nat) (e : CveEntry) : CveDb :=
  { db with cve := db.cve.map (fun r =>
      if r.rowid = cve_id then
        { r with
          cvss_score := e.cvss_score
          cvss_access_vector := e.cvss_access_vector
          cvss_access_complexity := e.cvss_access_complexity
          cvss_authentication := e.cvss_authentication
          cvss_integrity_impact := e.cvss_integrity_impact
          cwe := e.cwe
          summary := e.summary }
      else r) }

/-- cve.py CVEDB.__load_cve_entry: SELECT rowid FROM cve WHERE year AND
    number LIMIT 1; on a hit either delete (reject marker) or update in
    place, on a miss either do nothing (reject marker) or insert; then link
    every reference URL and product CPE name to the row. -/
def load_cve_entry (db : CveDb) (e : CveEntry) : CveDb :=
  match db.cve.find? (fun r => r.year == e.year && r.number == e.number) with
  | some row =>
    if isRejectSummary e.summary then deleteCveCascade db row.rowid
    else
      let db2 := updateCveRow db row.rowid e
      let db3 := e.references.foldl (addReference row.rowid) db2
      e.products.foldl (addProduct row.rowid) db3
  | none =>
    if isRejectSummary e.summary then db
    else
      let rid := nextRowid (db.cve.map (fun r => r.rowid))
      let db2 := { db with cve := db.cve ++
        [⟨rid, e.year, e.number, e.cvss_score, e.cvss_access_vector,
          e.cvss_access_complexity, e.cvss_authentication,
          e.cvss_integrity_impact, e.cwe, e.summary⟩] }
      let db3 := e.references.foldl (addReference rid) db2
      e.products.foldl (addProduct rid) db3

end Cve

/-! ### The _transaction wrapper (identical in cpe.py, cve.py, vulnid.py) -/

/-- Exceptions visible to the transaction wrapper: the RuntimeError("The
    database is busy") raised by the busy-flag guard, and any exception
    escaping the wrapped operation. -/
inductive PyExc where
  | storeBusy
  | other (msg : String)
deriving DecidableEq, Repr

/-- A store instance as seen by _transaction: the last committed database
    state and the busy flag. -/
structure StoreState (σ : Type) where
  db : σ
  busy : Bool
deriving DecidableEq, Repr

/-- The _transaction wrapper: raise when the busy flag is set; otherwise run
    the wrapped operation on the committed state, commit its result on
    success, or roll it back and re-raise the original exception on failure.
    The finally-block clearing of the busy flag is reflected in the final
    state of either branch. -/
def _transaction {σ α : Type} (fn : σ → Except PyExc (σ × α)) (s : StoreState σ) :
    Except PyExc α × StoreState σ :=
  if s.busy then (Except.error PyExc.storeBusy, s)
  else
    match fn s.db with
    | Except.ok (db2, r) => (Except.ok r, { db := db2, busy := false })
    | Except.error e => (Except.error e, { db := s.db, busy := false })

namespace Fetch

/-! ### cve.py CVEDB.__download -/

/-- One row of the `files` watermark table. -/
structure FileRow where
  filename : String
  last_modified : Nat
  last_modified_string : String
deriving DecidableEq, Repr

/-- Outcome of urlopen on the (possibly conditional) request: a success
    carrying the optional Last-Modified header, or an HTTPError. -/
inductive HttpResp where
  | ok (lastModified : Option String)
  | err (code : Nat)
deriving DecidableEq, Repr

/-- A local copy of the feed file, when one exists: whether the XML parser
    can open it, and its filesystem modification time. -/
structure LocalFile where
  parseable : Bool
  mtime : Nat
deriving DecidableEq, Repr

/-- The environment __download runs against: the local file system state,
    the remote server (a function of the If-Modified-Since header actually
    sent), the modification time the freshly written download gets, and
    whether writing the download fails. -/
structure FetchEnv where
  localFile : Option LocalFile
  respond : Option String → HttpResp
  downloadMtime : Nat
  writeFails : Bool

/-- Where the returned XML data came from. -/
inductive ParserTag where
  | fromLocal
  | fromDownload
deriving DecidableEq, Repr

/-- Exceptions escaping __download. -/
inductive DlErr where
  | httpError (code : Nat)
  | writeError
deriving DecidableEq, Repr

/-- Everything __download changes or returns: the return value (some tag =
    new data, none = already up to date), the watermark table afterwards,
    and whether the local file was (re)written or deleted. -/
structure DownloadOutcome where
  retval : Except DlErr (Option ParserTag)
  files : List FileRow
  wroteLocal : Bool
  unlinkedLocal : Bool
deriving Repr

/-- Abstract rendering of asctime(gmtime(t)). -/
def asctime_gmtime (t : Nat) : String :=
  "gmtime:" ++ toString t

/-- Python truthiness of an optional number (None and 0 are falsy). -/
def truthyNat (o : Option Nat) : Bool :=
  match o with
  | none => false
  | some t => t ≠ 0

/-- Python truthiness of an optional string (None and "" are falsy). -/
def truthyStr (o : Option String) : Bool :=
  match o with
  | none => false
  | some t => t ≠ ""

/-- INSERT INTO files VALUES (...); the UNIQUE ON CONFLICT REPLACE clause on
    filename replaces any previous row for it. -/
def filesReplace (files : List FileRow) (row : FileRow) : List FileRow :=
  files.filter (fun r => r.filename != row.filename) ++ [row]

/-- cve.py CVEDB.__download: read the stored watermark, prefer a newer local
    file without touching the network, otherwise issue a conditional GET
    (If-Modified-Since from the stored watermark string when truthy); a 304
    with a stored watermark means up to date, a 304 without one re-raises;
    fresh data is written to the local file and one watermark row is stored,
    keeping the old last_modified time when one was stored, and taking the
    string from the Last-Modified header when present. -/
def download (env : FetchEnv) (files : List FileRow) (xmlFile : String) :
    DownloadOutcome :=
  let stored := files.find? (fun r => r.filename == xmlFile)
  let db_time : Option Nat := stored.map (fun r => r.last_modified)
  let db_time_str : Option String := stored.map (fun r => r.last_modified_string)
  let localTriple : Option ParserTag × Option Nat × Bool :=
    match env.localFile with
    | some lf =>
      if lf.parseable then (some ParserTag.fromLocal, some lf.mtime, false)
      else (none, none, true)
    | none => (none, none, false)
  let xmlFromLocal := localTriple.1
  let local_time := localTriple.2.1
  let unlinked := localTriple.2.2
  if truthyNat local_time ∧
     (¬ truthyNat db_time ∨ local_time.getD 0 > db_time.getD 0) then
    { retval := Except.ok xmlFromLocal
      files := filesReplace files
        ⟨xmlFile, local_time.getD 0, asctime_gmtime (local_time.getD 0)⟩
      wroteLocal := false
      unlinkedLocal := unlinked }
  else
    match env.respond (if truthyStr db_time_str then db_time_str else none) with
    | HttpResp.err code =>
      if ¬ truthyNat db_time ∨ code ≠ 304 then
        { retval := Except.error (DlErr.httpError code)
          files := files
          wroteLocal := false
          unlinkedLocal := unlinked }
      else
        { retval := Except.ok none
          files := files
          wroteLocal := false
          unlinkedLocal := unlinked }
    | HttpResp.ok lastModified =>
      if env.writeFails then
        { retval := Except.error DlErr.writeError
          files := files
          wroteLocal := true
          unlinkedLocal := true }
      else
        let dbt := if ¬ truthyNat db_time then env.downloadMtime else db_time.getD 0
        let dbts := if ¬ truthyStr lastModified then asctime_gmtime dbt
                    else lastModified.getD ""
        { retval := Except.ok (some ParserTag.fromDownload)
          files := filesReplace files ⟨xmlFile, dbt, dbts⟩
          wroteLocal := true
          unlinkedLocal := unlinked }

end Fetch

namespace Ingest

/-! ### cve.py CVEDB.__load_cve_file: streaming parse with root.clear() -/

/-- One event of the iterparse start/end event stream. -/
inductive Ev where
  | start
  | stop (entryTag : Bool)
deriving DecidableEq, Repr

/-- Modelled from the spec: the memory-relevant state of an iterparse pass —
    the current element nesting depth below the root and the number of
    completed child subtrees of the root still attached to it (iterparse
    keeps completed elements attached until the caller clears them; the
    ElementTree library itself is outside the repository). -/
structure IngestState where
  depth : Nat
  retained : Nat
deriving DecidableEq, Repr

/-- One iteration of the `for event, item in context` loop of
    __load_cve_file: a start event opens an element; an end event closes
    one, attaching a completed subtree to the root when the element was a
    direct child of it; and when the ended element carries the }entry tag
    the record is loaded and root.clear() detaches every completed child
    subtree. -/
def step (s : IngestState) (e : Ev) : IngestState :=
  match e with
  | Ev.start => { s with depth := s.depth + 1 }
  | Ev.stop entryTag =>
    let s1 : IngestState :=
      { depth := s.depth - 1
        retained := if s.depth - 1 = 1 then s.retained + 1 else s.retained }
    if entryTag then { s1 with retained := 0 } else s1

/-- The whole event loop. -/
def run (evs : List Ev) (s : IngestState) : IngestState :=
  evs.foldl step s

end Ingest

/-! ## Lemmas about the string primitives -/

theorem getLast?_cons_ne (a : Char) {l : List Char} (h : l ≠ []) :
    (a :: l).getLast? = l.getLast? := by
  cases l with
  | nil => exact absurd rfl h
  | cons b m => exact List.getLast?_cons_cons

theorem dropTrailingSpace_getLast {l : List Char} {c : Char}
    (h : (dropTrailingSpace l).getLast? = some c) : ¬ isPySpace c := by
  induction l with
  | nil => simp [dropTrailingSpace] at h
  | cons a m ih =>
    simp only [dropTrailingSpace] at h
    by_cases hc : dropTrailingSpace m = [] ∧ isPySpace a = true
    · rw [if_pos hc] at h
      simp at h
    · rw [if_neg hc] at h
      by_cases hm : dropTrailingSpace m = []
      · rw [hm] at h
        have ha : a = c := by simpa using h
        subst ha
        intro hsp
        exact hc ⟨hm, hsp⟩
      · rw [getLast?_cons_ne a hm] at h
        exact ih h

theorem dropTrailingSpace_head {l : List Char} {c : Char}
    (h : (dropTrailingSpace l).head? = some c) : l.head? = some c := by
  cases l with
  | nil => simp [dropTrailingSpace] at h
  | cons a m =>
    simp only [dropTrailingSpace] at h
    by_cases hc : dropTrailingSpace m = [] ∧ isPySpace a = true
    · rw [if_pos hc] at h
      simp at h
    · rw [if_neg hc] at h
      simp at h
      simp [h]

theorem dropTrailingSpace_mem {l : List Char} {c : Char}
    (h : c ∈ dropTrailingSpace l) : c ∈ l := by
  induction l with
  | nil => simpa [dropTrailingSpace] using h
  | cons a m ih =>
    simp only [dropTrailingSpace] at h
    by_cases hc : dropTrailingSpace m = [] ∧ isPySpace a = true
    · rw [if_pos hc] at h
      simp at h
    · rw [if_neg hc] at h
      rcases List.mem_cons.mp h with h1 | h1
      · exact h1 ▸ List.mem_cons_self a m
      · exact List.mem_cons_of_mem a (ih h1)

theorem dropTrailingSpace_eq_self {l : List Char}
    (h : ∀ c, l.getLast? = some c → ¬ isPySpace c) : dropTrailingSpace l = l := by
  induction l with
  | nil => rfl
  | cons a m ih =>
    simp only [dropTrailingSpace]
    cases m with
    | nil =>
      have := h a rfl
      simp [this, dropTrailingSpace]
    | cons b m2 =>
      have hm : dropTrailingSpace (b :: m2) = b :: m2 := by
        apply ih
        intro c hc
        exact h c (List.getLast?_cons_cons.symm ▸ hc)
      rw [hm]
      simp

theorem dropWhile_head_not {p : Char → Bool} {l : List Char} {c : Char}
    (h : (l.dropWhile p).head? = some c) : ¬ p c := by
  induction l with
  | nil => simp [List.dropWhile] at h
  | cons a m ih =>
    rw [List.dropWhile_cons] at h
    by_cases hp : p a
    · simp [hp] at h
      exact ih h
    · simp [hp] at h
      subst h
      simp [hp]

theorem dropWhile_eq_self {l : List Char}
    (h : ∀ c, l.head? = some c → ¬ isPySpace c) : l.dropWhile isPySpace = l := by
  cases l with
  | nil => rfl
  | cons a m =>
    have := h a rfl
    simp [List.dropWhile_cons, this]

theorem stripL_getLast {l : List Char} {c : Char}
    (h : (stripL l).getLast? = some c) : ¬ isPySpace c :=
  dropTrailingSpace_getLast h

theorem stripL_head {l : List Char} {c : Char}
    (h : (stripL l).head? = some c) : ¬ isPySpace c :=
  dropWhile_head_not (dropTrailingSpace_head h)

theorem stripL_mem {l : List Char} {c : Char} (h : c ∈ stripL l) : c ∈ l :=
  List.Sublist.mem (dropTrailingSpace_mem h) (List.dropWhile_sublist _)

theorem stripL_eq_self {l : List Char}
    (hh : ∀ c, l.head? = some c → ¬ isPySpace c)
    (hl : ∀ c, l.getLast? = some c → ¬ isPySpace c) : stripL l = l := by
  unfold stripL
  rw [dropWhile_eq_self hh]
  exact dropTrailingSpace_eq_self hl

/-! ## Lemmas about the splitters and joiner -/

theorem splitColon_ne_nil (l : List Char) : splitColon l ≠ [] := by
  cases l with
  | nil => simp [splitColon]
  | cons c m =>
    simp only [splitColon]
    by_cases hc : c = ':' <;> simp [hc]

theorem splitColon_colon_free {l : List Char} :
    ∀ f ∈ splitColon l, ':' ∉ f := by
  induction l with
  | nil =>
    intro f hf
    simp [splitColon] at hf
    simp [hf]
  | cons c m ih =>
    intro f hf
    simp only [splitColon] at hf
    by_cases hc : c = ':'
    · rw [if_pos hc] at hf
      rcases List.mem_cons.mp hf with h1 | h1
      · simp [h1]
      · exact ih f h1
    · rw [if_neg hc] at hf
      rcases List.mem_cons.mp hf with h1 | h1
      · subst h1
        intro hmem
        rcases List.mem_cons.mp hmem with h2 | h2
        · exact hc h2.symm
        · rcases hr : splitColon m with _ | ⟨rh, rt⟩
          · exact splitColon_ne_nil m hr
          · rw [hr] at h2
            exact ih rh (hr ▸ List.mem_cons_self rh rt) h2
      · rcases hr : splitColon m with _ | ⟨rh, rt⟩
        · exact absurd hr (splitColon_ne_nil m)
        · rw [hr] at h1
          exact ih f (hr ▸ List.mem_cons_of_mem rh h1)

theorem splitUnescAux_colon_free {f : List Char} (hf : ':' ∉ f) :
    ∀ p, splitUnescAux p f = [f] := by
  induction f with
  | nil => intro p; rfl
  | cons c m ih =>
    intro p
    have hc : c ≠ ':' := fun h => hf (h ▸ List.mem_cons_self c m)
    have hm : ':' ∉ m := fun h => hf (List.mem_cons_of_mem c h)
    simp only [splitUnescAux]
    rw [ih hm (some c)]
    simp [hc]

theorem splitUnescAux_append {f : List Char} (t : List Char) (hf : ':' ∉ f)
    (hbs : f.getLast? ≠ some '\\') :
    ∀ p, (f = [] → p ≠ some '\\') →
      splitUnescAux p (f ++ ':' :: t) = f :: splitUnescAux (some ':') t := by
  induction f with
  | nil =>
    intro p hp
    simp only [List.nil_append, splitUnescAux]
    simp [hp rfl]
  | cons c m ih =>
    intro p _
    have hc : c ≠ ':' := fun h => hf (h ▸ List.mem_cons_self c m)
    have hm : ':' ∉ m := fun h => hf (List.mem_cons_of_mem c h)
    have hmbs : m.getLast? ≠ some '\\' := by
      cases m with
      | nil => simp
      | cons b m2 => exact List.getLast?_cons_cons ▸ hbs
    have hme : m = [] → some c ≠ some '\\' := by
      intro hme0
      subst hme0
      simpa using hbs
    have hrec := ih hm hmbs (some c) hme
    simp only [List.cons_append, splitUnescAux, List.append_eq]
    rw [hrec]
    simp [hc]

theorem splitUnescAux_join {fields : List (List Char)}
    (h : ∀ f ∈ fields, ':' ∉ f ∧ f.getLast? ≠ some '\\') :
    ∀ p, p ≠ some '\\' → fields ≠ [] →
      splitUnescAux p (joinColon fields) = fields := by
  induction fields with
  | nil => intro p _ hne; exact absurd rfl hne
  | cons f rest ih =>
    intro p hp _
    rcases h f (List.mem_cons_self f rest) with ⟨hfc, hfb⟩
    cases rest with
    | nil =>
      simp only [joinColon]
      exact splitUnescAux_colon_free hfc p
    | cons g rest2 =>
      simp only [joinColon]
      rw [splitUnescAux_append (joinColon (g :: rest2)) hfc hfb p (fun _ => hp)]
      rw [ih (fun x hx => h x (List.mem_cons_of_mem f hx)) (some ':') (by decide) (by simp)]

theorem splitUnescL_join {fields : List (List Char)}
    (h : ∀ f ∈ fields, ':' ∉ f ∧ f.getLast? ≠ some '\\') (hne : fields ≠ []) :
    splitUnescL (joinColon fields) = fields :=
  splitUnescAux_join h none (by simp) hne

/-! ## Lemmas about vulnid.py cpe22_unquote -/

namespace Vulnid

theorem cpe22_unquoteL_bs (rest : List Char) :
    cpe22_unquoteL ('\\' :: rest) = '\\' :: '\\' :: cpe22_unquoteL rest := by
  rw [cpe22_unquoteL.eq_def]
  simp

theorem cpe22_unquoteL_other {c : Char} (h1 : c ≠ '\\') (h2 : c ≠ '%')
    (rest : List Char) : cpe22_unquoteL (c :: rest) = c :: cpe22_unquoteL rest := by
  rw [cpe22_unquoteL.eq_def]
  simp [h1, h2]

theorem cpe22_unquoteL_pp (rest2 : List Char) :
    cpe22_unquoteL ('%' :: '%' :: rest2) = '%' :: cpe22_unquoteL rest2 := by
  rw [cpe22_unquoteL.eq_def]
  simp

theorem cpe22_unquoteL_p_nil : cpe22_unquoteL ['%'] = ['%'] := by
  rw [cpe22_unquoteL.eq_def]
  simp [cpe22_unquoteL]

theorem cpe22_unquoteL_p_other {c2 : Char} (h : c2 ≠ '%') (r2 : List Char) :
    cpe22_unquoteL ('%' :: c2 :: r2) = '%' :: cpe22_unquoteL (c2 :: r2) := by
  rw [cpe22_unquoteL.eq_def]
  simp [h]

theorem cpe22_unquoteL_ne_nil {l : List Char} (h : l ≠ []) :
    cpe22_unquoteL l ≠ [] := by
  rcases l with _ | ⟨c, rest⟩
  · exact absurd rfl h
  · by_cases hc1 : c = '\\'
    · subst hc1
      rw [cpe22_unquoteL_bs]
      simp
    · by_cases hc2 : c = '%'
      · subst hc2
        rcases rest with _ | ⟨c2, r2⟩
        · rw [cpe22_unquoteL_p_nil]
          simp
        · by_cases h2 : c2 = '%'
          · subst h2
            rw [cpe22_unquoteL_pp]
            simp
          · rw [cpe22_unquoteL_p_other h2]
            simp
      · rw [cpe22_unquoteL_other hc1 hc2]
        simp

theorem cpe22_unquoteL_head (l : List Char) :
    (cpe22_unquoteL l).head? = l.head? := by
  rcases l with _ | ⟨c, rest⟩
  · rfl
  · by_cases hc1 : c = '\\'
    · subst hc1
      rw [cpe22_unquoteL_bs]
      simp
    · by_cases hc2 : c = '%'
      · subst hc2
        rcases rest with _ | ⟨c2, r2⟩
        · rw [cpe22_unquoteL_p_nil]
        · by_cases h2 : c2 = '%'
          · subst h2
            rw [cpe22_unquoteL_pp]
            simp
          · rw [cpe22_unquoteL_p_other h2]
            simp
      · rw [cpe22_unquoteL_other hc1 hc2]
        simp

theorem cpe22_unquoteL_getLast (l : List Char) :
    (cpe22_unquoteL l).getLast? = l.getLast? := by
  induction l using cpe22_unquoteL.induct with
  | case1 => rfl
  | case2 rest ih =>
    rw [cpe22_unquoteL_bs]
    rcases rest with _ | ⟨b, m⟩
    · rfl
    · have hne : cpe22_unquoteL (b :: m) ≠ [] := cpe22_unquoteL_ne_nil (by simp)
      rw [List.getLast?_cons_cons, getLast?_cons_ne _ hne, ih,
        getLast?_cons_ne _ (l := b :: m) (by simp)]
  | case3 c rest h1 h2 ih =>
    rw [cpe22_unquoteL_other h1 h2]
    rcases rest with _ | ⟨b, m⟩
    · rfl
    · have hne : cpe22_unquoteL (b :: m) ≠ [] := cpe22_unquoteL_ne_nil (by simp)
      rw [getLast?_cons_ne _ hne, ih, getLast?_cons_ne _ (l := b :: m) (by simp)]
  | case4 c h1 h2 rest2 ih =>
    have hc : c = '%' := by push_neg at h2; exact h2
    subst hc
    rw [cpe22_unquoteL_pp]
    rcases rest2 with _ | ⟨b, m⟩
    · rfl
    · have hne : cpe22_unquoteL (b :: m) ≠ [] := cpe22_unquoteL_ne_nil (by simp)
      rw [getLast?_cons_ne _ hne, ih, List.getLast?_cons_cons,
        getLast?_cons_ne _ (l := b :: m) (by simp)]
  | case5 c h1 h2 r hnp hlet hcond ih =>
    have hc : c = '%' := by push_neg at h2; exact h2
    subst hc
    rcases r with _ | ⟨c2, r2⟩
    · rw [cpe22_unquoteL_p_nil]
    · have h2c : c2 ≠ '%' := by
        intro hh
        exact hnp r2 (by rw [hh])
      rw [cpe22_unquoteL_p_other h2c]
      have hne : cpe22_unquoteL (c2 :: r2) ≠ [] := cpe22_unquoteL_ne_nil (by simp)
      rw [getLast?_cons_ne _ hne, ih, getLast?_cons_ne _ (l := c2 :: r2) (by simp)]
  | case6 c h1 h2 r hnp hlet hcond ih =>
    exfalso
    apply hcond
    left
    rcases r with _ | ⟨c2, r2⟩ <;> simp [hlet]

theorem cpe22_unquoteL_mem {c : Char} {l : List Char}
    (h : c ∈ cpe22_unquoteL l) : c ∈ l ∨ c = '\\' ∨ c = '%' := by
  induction l using cpe22_unquoteL.induct with
  | case1 => simp [cpe22_unquoteL] at h
  | case2 rest ih =>
    rw [cpe22_unquoteL_bs] at h
    rcases List.mem_cons.mp h with h1 | h1
    · exact Or.inr (Or.inl h1)
    · rcases List.mem_cons.mp h1 with h2 | h2
      · exact Or.inr (Or.inl h2)
      · rcases ih h2 with h3 | h3
        · exact Or.inl (List.mem_cons_of_mem _ h3)
        · exact Or.inr h3
  | case3 a rest h1 h2 ih =>
    rw [cpe22_unquoteL_other h1 h2] at h
    rcases List.mem_cons.mp h with h3 | h3
    · exact Or.inl (h3 ▸ List.mem_cons_self a rest)
    · rcases ih h3 with h4 | h4
      · exact Or.inl (List.mem_cons_of_mem _ h4)
      · exact Or.inr h4
  | case4 a h1 h2 rest2 ih =>
    have hc : a = '%' := by push_neg at h2; exact h2
    subst hc
    rw [cpe22_unquoteL_pp] at h
    rcases List.mem_cons.mp h with h3 | h3
    · exact Or.inr (Or.inr h3)
    · rcases ih h3 with h4 | h4
      · exact Or.inl (List.mem_cons_of_mem _ (List.mem_cons_of_mem _ h4))
      · exact Or.inr h4
  | case5 a h1 h2 r hnp hlet hcond ih =>
    have hc : a = '%' := by push_neg at h2; exact h2
    subst hc
    rcases r with _ | ⟨c2, r2⟩
    · rw [cpe22_unquoteL_p_nil] at h
      rcases List.mem_cons.mp h with h3 | h3
      · exact Or.inr (Or.inr h3)
      · simp at h3
    · have h2c : c2 ≠ '%' := by
        intro hh
        exact hnp r2 (by rw [hh])
      rw [cpe22_unquoteL_p_other h2c] at h
      rcases List.mem_cons.mp h with h3 | h3
      · exact Or.inr (Or.inr h3)
      · rcases ih h3 with h4 | h4
        · exact Or.inl (List.mem_cons_of_mem _ h4)
        · exact Or.inr h4
  | case6 a h1 h2 r hnp hlet hcond ih =>
    exfalso
    apply hcond
    left
    rcases r with _ | ⟨c2, r2⟩ <;> simp [hlet]

theorem cpe22_unquoteL_colon_free {l : List Char} (h : ':' ∉ l) :
    ':' ∉ cpe22_unquoteL l := by
  intro hmem
  rcases cpe22_unquoteL_mem hmem with h1 | h1 | h1
  · exact h h1
  · exact absurd h1 (by decide)
  · exact absurd h1 (by decide)

theorem escapeColons_eq_self {f : List Char} (hf : ':' ∉ f) :
    escapeColons f = f := by
  induction f with
  | nil => rfl
  | cons c m ih =>
    have hc : c ≠ ':' := fun h => hf (h ▸ List.mem_cons_self c m)
    have hm : ':' ∉ m := fun h => hf (List.mem_cons_of_mem c h)
    simp [escapeColons, hc, ih hm]

theorem parse22L_length (body : List Char) :
    (parse22L body).length = max 11 (splitColon body).length := by
  unfold parse22L
  by_cases h : (splitColon body).length < 11
  · rw [if_pos (by simpa using h)]
    simp only [List.length_append, List.length_replicate, List.length_map]
    omega
  · rw [if_neg (by simpa using h)]
    simp only [List.length_map]
    omega

theorem parse22L_mem {body f : List Char} (h : f ∈ parse22L body) :
    (∃ comp ∈ splitColon body, f = cpe22_unquoteL (stripL comp)) ∨ f = ['*'] := by
  unfold parse22L at h
  by_cases hc : ((splitColon body).map fun x => cpe22_unquoteL (stripL x)).length < 11
  · rw [if_pos hc] at h
    rcases List.mem_append.mp h with h1 | h1
    · left
      rcases List.mem_map.mp h1 with ⟨comp, hcm, hceq⟩
      exact ⟨comp, hcm, hceq.symm⟩
    · right
      exact List.eq_of_mem_replicate h1
  · rw [if_neg hc] at h
    left
    rcases List.mem_map.mp h with ⟨comp, hcm, hceq⟩
    exact ⟨comp, hcm, hceq.symm⟩

end Vulnid

/-- Pointwise-identity maps leave a list unchanged. -/
theorem map_self_of {α : Type} {l : List α} {f : α → α}
    (h : ∀ a ∈ l, f a = a) : l.map f = l := by
  induction l with
  | nil => rfl
  | cons a m ih =>
    simp only [List.map_cons, h a (List.mem_cons_self a m)]
    rw [ih (fun b hb => h b (List.mem_cons_of_mem a hb))]


theorem isPrefixOf_append_self (l X : List Char) : l.isPrefixOf (l ++ X) = true := by
  induction l with
  | nil => simp [List.isPrefixOf]
  | cons a m ih => simp [List.isPrefixOf, ih]

theorem not_isPrefixOf_22_of_23 (X : List Char) :
    "cpe:/".toList.isPrefixOf ("cpe:2.3:".toList ++ X) = false := by
  show List.isPrefixOf ['c', 'p', 'e', ':', '/']
    (['c', 'p', 'e', ':', '2', '.', '3', ':'] ++ X) = false
  simp [List.isPrefixOf]

/-- Core of the round-trip results: parsing the serialized form of 11
    colon-free, non-backslash-terminated, whitespace-trimmed fields yields
    those fields back. -/
theorem parse_cpeL_unparse (fields : List (List Char)) (hlen : fields.length = 11)
    (hf : ∀ f ∈ fields, ':' ∉ f ∧ f.getLast? ≠ some '\\' ∧ stripL f = f) :
    Vulnid.parse_cpeL (Vulnid.unparse_cpe23L fields) = some fields := by
  have hesc : fields.map Vulnid.escapeColons = fields :=
    map_self_of (fun f hfm => Vulnid.escapeColons_eq_self (hf f hfm).1)
  unfold Vulnid.unparse_cpe23L
  rw [hesc]
  have h1 := not_isPrefixOf_22_of_23 (joinColon fields)
  have h2 := isPrefixOf_append_self "cpe:2.3:".toList (joinColon fields)
  have hv : get_cpe_versionL ("cpe:2.3:".toList ++ joinColon fields) = some "2.3" := by
    unfold get_cpe_versionL
    rw [if_neg (by rw [h1]; exact Bool.false_ne_true), if_pos (by rw [h2])]
  unfold Vulnid.parse_cpeL
  simp only [hv]
  rw [if_pos trivial]
  have hd : ("cpe:2.3:".toList ++ joinColon fields).drop 8 = joinColon fields := rfl
  rw [hd]
  unfold Vulnid.parse23L
  have hne : fields ≠ [] := by
    intro hx
    rw [hx] at hlen
    simp at hlen
  rw [splitUnescL_join (fun f hfm => ⟨(hf f hfm).1, (hf f hfm).2.1⟩) hne]
  rw [map_self_of (fun f hfm => (hf f hfm).2.2)]
  simp [hlen]

/-- parse_cpe's 2.3 branch only succeeds with exactly 11 fields. -/
theorem Vulnid.parse23L_length {body : List Char} {l : List (List Char)}
    (h : Vulnid.parse23L body = some l) : l.length = 11 := by
  unfold Vulnid.parse23L at h
  by_cases hc : ((splitUnescL body).map stripL).length = 11
  · rw [if_pos hc] at h
    cases h
    exact hc
  · rw [if_neg hc] at h
    cases h

/-! ## Claim theorems: the name codec -/

/-- C3: behaviour of cpe22_unquote at the inputs named by the claim.  The
    claim (like the code's own hex-digit checks and chr(int(h, 16)) call)
    says "foo%01bar" decodes to "foo" ++ chr 1 ++ "bar"; because
    h = s[i+1:i+2] is a slice of at most one character, len(h) != 2 always
    holds, the decode branch is unreachable, and vulnid.py returns the input
    unchanged, while cpe.py's revision (loop bound `while i < len(s)`) reads
    past the end and raises IndexError on every non-empty input.  The
    trailing-percent and empty-input parts of the claim hold. -/
theorem C3_cpe22_unquote_percent :
    Vulnid.cpe22_unquote "foo%01bar" = "foo%01bar" ∧
    Vulnid.cpe22_unquote "100%" = "100%" ∧
    Vulnid.cpe22_unquote "" = "" ∧
    Cpe.cpe22_unquote "foo%01bar" = none ∧
    Cpe.cpe22_unquote "" = some "" := by
  refine ⟨?_, ?_, ?_, ?_, ?_⟩ <;> decide

/-- C2 counterexample: the valid 2.2 name "cpe:/" ++ backslash parses, but
    its 2.3 conversion ends the first field with a backslash, which escapes
    the joining colon; re-parsing then sees 10 fields and fails, so the
    round trip does not reproduce parse_cpe of the original.  A 2.2 name
    with 12 components also parses but fails to re-parse after conversion. -/
theorem C2_counterexample :
    Vulnid.parse_cpe "cpe:/\\" =
      some ["\\\\", "*", "*", "*", "*", "*", "*", "*", "*", "*", "*"] ∧
    Vulnid.cpe22to23 "cpe:/\\" = some "cpe:2.3:\\\\:*:*:*:*:*:*:*:*:*:*" ∧
    (Vulnid.cpe22to23 "cpe:/\\").bind Vulnid.parse_cpe = none ∧
    Vulnid.parse_cpe "cpe:/x:x:x:x:x:x:x:x:x:x:x:x" ≠ none ∧
    (Vulnid.cpe22to23 "cpe:/x:x:x:x:x:x:x:x:x:x:x:x").bind Vulnid.parse_cpe = none := by
  refine ⟨?_, ?_, ?_, ?_, ?_⟩ <;> decide

/-- C2 (amended): for every 2.2 name (a string with the "cpe:/" lead) with
    at most 11 colon-separated components, none of which ends in a backslash
    after whitespace stripping, converting to 2.3 form and parsing the
    result yields the same 11-field record as parsing the original name
    directly. -/
theorem C2_roundtrip_22_to_23 (s : String)
    (h22 : "cpe:/".toList.isPrefixOf s.toList = true)
    (hbs : ∀ comp ∈ splitColon (s.toList.drop 5), (stripL comp).getLast? ≠ some '\\')
    (hcnt : (splitColon (s.toList.drop 5)).length ≤ 11) :
    ∃ fields, Vulnid.parse_cpe s = some fields ∧
      (Vulnid.cpe22to23 s).bind Vulnid.parse_cpe = some fields := by
  have hv : get_cpe_versionL s.toList = some "2.2" := by
    unfold get_cpe_versionL
    rw [if_pos h22]
  have hp : Vulnid.parse_cpeL s.toList = some (Vulnid.parse22L (s.toList.drop 5)) := by
    unfold Vulnid.parse_cpeL
    simp only [hv]
    rw [if_pos trivial]
  have hfmem : ∀ f ∈ Vulnid.parse22L (s.toList.drop 5),
      ':' ∉ f ∧ f.getLast? ≠ some '\\' ∧ stripL f = f := by
    intro f hfm
    rcases Vulnid.parse22L_mem hfm with ⟨comp, hcm, rfl⟩ | rfl
    · have hcf : ':' ∉ stripL comp :=
        fun hx => splitColon_colon_free comp hcm (stripL_mem hx)
    
      refine ⟨Vulnid.cpe22_unquoteL_colon_free hcf, ?_, ?_⟩
      · rw [Vulnid.cpe22_unquoteL_getLast]
        exact hbs comp hcm
      · apply stripL_eq_self
        · intro c hc
          rw [Vulnid.cpe22_unquoteL_head] at hc
          exact stripL_head hc
        · intro c hc
          rw [Vulnid.cpe22_unquoteL_getLast] at hc
          exact stripL_getLast hc
    · exact ⟨by decide, by decide, by decide⟩
  have hflen : (Vulnid.parse22L (s.toList.drop 5)).length = 11 := by
    rw [Vulnid.parse22L_length]
    omega
  have hcore := parse_cpeL_unparse _ hflen hfmem
  refine ⟨(Vulnid.parse22L (s.toList.drop 5)).map String.mk, ?_, ?_⟩
  · unfold Vulnid.parse_cpe
    rw [hp]
    rfl
  · unfold Vulnid.cpe22to23 Vulnid.cpe22to23L Vulnid.parse_cpe
    rw [hp]
    simp only [Option.map_some', Option.some_bind]
    rw [show (String.mk (Vulnid.unparse_cpe23L (Vulnid.parse22L (s.toList.drop 5)))).toList =
      Vulnid.unparse_cpe23L (Vulnid.parse22L (s.toList.drop 5)) from rfl]
    rw [hcore]
    rfl

/-- C2 witness: the round trip at the concrete name "cpe:/a:vendor:product". -/
theorem C2_witness :
    ∃ fields, Vulnid.parse_cpe "cpe:/a:vendor:product" = some fields ∧
      (Vulnid.cpe22to23 "cpe:/a:vendor:product").bind Vulnid.parse_cpe = some fields :=
  C2_roundtrip_22_to_23 "cpe:/a:vendor:product" (by decide) (by decide) (by decide)

/-- C8 counterexample: a 2.2 name with 12 components parses to 12 fields,
    not 11 — the 2.2 branch pads short names but never truncates long ones. -/
theorem C8_counterexample :
    Vulnid.parse_cpe "cpe:/a:b:c:d:e:f:g:h:i:j:k:l" =
      some ["a", "b", "c", "d", "e", "f", "g", "h", "i", "j", "k", "l"] ∧
    (["a", "b", "c", "d", "e", "f", "g", "h", "i", "j", "k", "l"] : List String).length ≠ 11 := by
  exact ⟨by decide, by decide⟩

/-- C8 (amended): whenever parse_cpe succeeds, the field count is exactly 11
    for 2.3 names and for 2.2 names with at most 11 components (padding with
    "*"), and equals the component count for longer 2.2 names; the claimed
    padding example holds as stated. -/
theorem C8_parse_cpe_field_count (s : String) (l : List String)
    (h : Vulnid.parse_cpe s = some l) :
    (l.length = if "cpe:/".toList.isPrefixOf s.toList = true then
        max 11 (splitColon (s.toList.drop 5)).length
      else 11) ∧
    Vulnid.parse_cpe "cpe:/a:vendor:product" =
      some ["a", "vendor", "product", "*", "*", "*", "*", "*", "*", "*", "*"] := by
  refine ⟨?_, by decide⟩
  by_cases h22 : "cpe:/".toList.isPrefixOf s.toList = true
  · rw [if_pos h22]
    have hv : get_cpe_versionL s.toList = some "2.2" := by
      unfold get_cpe_versionL
      rw [if_pos h22]
    unfold Vulnid.parse_cpe Vulnid.parse_cpeL at h
    simp only [hv] at h
    rw [if_pos trivial] at h
    simp only [Option.map_some', Option.some.injEq] at h
    subst h
    simp [Vulnid.parse22L_length]
  · rw [if_neg h22]
    by_cases h23 : "cpe:2.3:".toList.isPrefixOf s.toList = true
    · have hv : get_cpe_versionL s.toList = some "2.3" := by
        unfold get_cpe_versionL
        rw [if_neg (by simpa using h22), if_pos h23]
      unfold Vulnid.parse_cpe Vulnid.parse_cpeL at h
      simp only [hv] at h
      rw [if_neg (by decide), if_pos trivial] at h
      rcases hq : Vulnid.parse23L (s.toList.drop 8) with _ | l23
      · rw [hq] at h
        cases h
      · rw [hq] at h
        simp only [Option.map_some', Option.some.injEq] at h
        subst h
        simp [Vulnid.parse23L_length hq]
    · have hv : get_cpe_versionL s.toList = none := by
        unfold get_cpe_versionL
        rw [if_neg (by simpa using h22), if_neg (by simpa using h23)]
      unfold Vulnid.parse_cpe Vulnid.parse_cpeL at h
      simp only [hv] at h
      cases h

/-- C8 witness: the field-count law applied at "cpe:/a:vendor:product". -/
theorem C8_witness :
    ((["a", "vendor", "product", "*", "*", "*", "*", "*", "*", "*", "*"] : List String).length =
      if "cpe:/".toList.isPrefixOf "cpe:/a:vendor:product".toList = true then
        max 11 (splitColon ("cpe:/a:vendor:product".toList.drop 5)).length
      else 11) ∧
    Vulnid.parse_cpe "cpe:/a:vendor:product" =
      some ["a", "vendor", "product", "*", "*", "*", "*", "*", "*", "*", "*"] :=
  C8_parse_cpe_field_count "cpe:/a:vendor:product"
    ["a", "vendor", "product", "*", "*", "*", "*", "*", "*", "*", "*"] (by decide)

/-- C9 counterexample: parse_cpe does not undo the backslash-escaping of
    colons that unparse_cpe23 introduces, so a field containing a colon
    comes back escaped; a field ending in a backslash makes the re-parse
    fail altogether. -/
theorem C9_counterexample :
    Vulnid.parse_cpe (Vulnid.unparse_cpe23
      ["a:b", "*", "*", "*", "*", "*", "*", "*", "*", "*", "*"]) =
      some ["a\\:b", "*", "*", "*", "*", "*", "*", "*", "*", "*", "*"] ∧
    ("a\\:b" : String) ≠ "a:b" ∧
    Vulnid.parse_cpe (Vulnid.unparse_cpe23
      ["x\\", "*", "*", "*", "*", "*", "*", "*", "*", "*", "*"]) = none := by
  refine ⟨?_, ?_, ?_⟩ <;> decide

/-- C9 (amended): for every list of 11 fields that contain no colon, do not
    end in a backslash, and carry no leading or trailing whitespace,
    parse_cpe(unparse_cpe23(fields)) = fields. -/
theorem C9_unparse_parse_roundtrip (fields : List String)
    (hlen : fields.length = 11)
    (hf : ∀ f ∈ fields, ':' ∉ f.toList ∧ f.toList.getLast? ≠ some '\\' ∧
      stripL f.toList = f.toList) :
    Vulnid.parse_cpe (Vulnid.unparse_cpe23 fields) = some fields := by
  unfold Vulnid.parse_cpe Vulnid.unparse_cpe23
  have hcore := parse_cpeL_unparse (fields.map String.toList)
    (by simp [hlen])
    (by
      intro f hfm
      rcases List.mem_map.mp hfm with ⟨g, hg, rfl⟩
      exact hf g hg)
  rw [show (String.mk (Vulnid.unparse_cpe23L (fields.map String.toList))).toList =
    Vulnid.unparse_cpe23L (fields.map String.toList) from rfl]
  rw [hcore]
  simp only [Option.map_some', Option.some.injEq, List.map_map]
  exact map_self_of (fun f _ => rfl)

/-- C9 witness: the amended round trip at a concrete field list. -/
theorem C9_witness :
    Vulnid.parse_cpe (Vulnid.unparse_cpe23
      ["a", "vendor", "product", "1.0", "*", "*", "*", "*", "*", "*", "*"]) =
      some ["a", "vendor", "product", "1.0", "*", "*", "*", "*", "*", "*", "*"] :=
  C9_unparse_parse_roundtrip
    ["a", "vendor", "product", "1.0", "*", "*", "*", "*", "*", "*", "*"]
    (by decide) (by decide)

end NetworkTools
namespace NetworkTools
theorem filter_range_getD (l : List String) :
    ((List.range l.length).filter (fun i => l.getD i "" ≠ "*")).map
        (fun i => l.getD i "") =
      l.filter (fun x => x ≠ "*") := by
  induction l with
  | nil => rfl
  | cons a t ih =>
    have hr : List.range (a :: t).length = 0 :: (List.range t.length).map Nat.succ := by
      simp [List.range_succ_eq_map]
    rw [hr]
    by_cases ha : a ≠ "*" <;>
      simp only [List.getD] at ih ⊢ <;>
      simp [List.filter_cons, List.filter_map, Function.comp_def, List.getD_cons_zero,
        List.getD_cons_succ, List.map_map, ha] at ih ⊢ <;>
      exact ih
end NetworkTools
namespace NetworkTools

theorem isPrefixOf_22_of_23_false {q : List Char}
    (h23 : "cpe:2.3:".toList.isPrefixOf q = true) :
    "cpe:/".toList.isPrefixOf q = false := by
  rcases List.isPrefixOf_iff_prefix.mp h23 with ⟨X, hX⟩
  rw [← hX]
  exact not_isPrefixOf_22_of_23 X

theorem resolve23_spec (db : List Cpe.CpeRow) (q : String) (parsed : List String)
    (h23 : "cpe:2.3:".toList.isPrefixOf q.toList = true)
    (hp : Cpe.parse_cpe q = some parsed)
    (hnw : parsed.filter (fun x => x ≠ "*") ≠ []) :
    ∃ res, Cpe.resolve db q true = some res ∧
      ∀ x, x ∈ res ↔ ∃ r ∈ db, x = r.name23 ∧
        (r.name23 = q ∨ ∀ i < 11, parsed.getD i "" ≠ "*" →
          Cpe.columnValue r ((Cpe.columnsFor "23").getD i "") = some (parsed.getD i "")) := by
  have h22 : "cpe:/".toList.isPrefixOf q.toList = false := isPrefixOf_22_of_23_false h23
  have hv : get_cpe_versionL q.toList = some "2.3" := by
    unfold get_cpe_versionL
    rw [if_neg (by rw [h22]; exact Bool.false_ne_true), if_pos (by rw [h23])]
  -- the parsed fields of a 2.3 name are exactly 11
  have hlen : parsed.length = 11 := by
    unfold Cpe.parse_cpe Cpe.parse_cpeL at hp
    simp only [hv] at hp
    rw [if_neg (by decide), if_pos trivial] at hp
    rcases hq : Vulnid.parse23L (q.toList.drop 8) with _ | l23
    · rw [hq] at hp
      cases hp
    · rw [hq] at hp
      simp only [Option.map_some', Option.some.injEq] at hp
      subst hp
      simp [Vulnid.parse23L_length hq]
  have hver : Cpe.removeDots "2.3" = "23" := by decide
  have hcl : (Cpe.columnsFor "23").length = 11 := by decide
  have hmap := filter_range_getD parsed
  rw [hlen] at hmap
  have hsub_ne : ¬ ((List.range 11).filter (fun i => parsed.getD i "" ≠ "*")).length = 0 := by
    intro h0
    rw [List.length_eq_zero] at h0
    have : ((List.range 11).filter (fun i => parsed.getD i "" ≠ "*")).map
        (fun i => parsed.getD i "") = [] := by
      rw [h0]
      rfl
    rw [hmap] at this
    exact hnw this
  have hplen : (parsed.filter (fun x => x ≠ "*")).length =
      ((List.range 11).filter (fun i => parsed.getD i "" ≠ "*")).length := by
    rw [← hmap, List.length_map]
  have hnc : ∀ r : Cpe.CpeRow, Cpe.nameColumn "23" r = r.name23 := by
    intro r
    simp [Cpe.nameColumn]
  refine ⟨(db.filter (fun r =>
      (true || !r.deprecated) &&
      (Cpe.nameColumn "23" r == q ||
       ((List.range 11).filter (fun i => parsed.getD i "" ≠ "*")).all (fun i =>
         Cpe.columnValue r ((Cpe.columnsFor "23").getD i "") == some (parsed.getD i ""))))).map
      (Cpe.nameColumn "23"), ?_, ?_⟩
  · have hguard : ¬ ((q :: parsed.filter (fun x => x ≠ "*")).length ≠ 1 +
        ((List.range 11).filter (fun i => parsed.getD i "" ≠ "*")).length) := by
      simp only [ne_eq, not_not, List.length_cons]
      simp only [ne_eq, List.getD] at hplen ⊢
      simp at hplen ⊢
      omega
    unfold Cpe.resolve
    simp only [hv, hp, hver, hcl]
    rw [if_neg hnw, if_neg hsub_ne, if_neg hguard]
  · intro x
    simp only [List.mem_map, List.mem_filter, Bool.true_or, Bool.true_and, Bool.or_eq_true,
      beq_iff_eq, List.all_eq_true, List.mem_range, decide_eq_true_eq, hnc]
    constructor
    · rintro ⟨r, ⟨hrdb, hpred⟩, rfl⟩
      refine ⟨r, hrdb, rfl, ?_⟩
      rcases hpred with hlit | hall
      · exact Or.inl hlit
      · right
        intro i hi hne
        exact hall i ⟨hi, hne⟩
    · rintro ⟨r, hrdb, rfl, hcase⟩
      refine ⟨r, ⟨hrdb, ?_⟩, rfl⟩
      rcases hcase with hlit | hall
      · exact Or.inl hlit
      · right
        intro i hifm
        exact hall i hifm.1 hifm.2

end NetworkTools
namespace NetworkTools

theorem resolve_all_wildcard (db : List Cpe.CpeRow) (q2 : String) (v2 : String)
    (parsed2 : List String) (incl : Bool)
    (hv2 : get_cpe_versionL q2.toList = some v2)
    (hp2 : Cpe.parse_cpe q2 = some parsed2)
    (hempty : parsed2.filter (fun x => x ≠ "*") = []) :
    Cpe.resolve db q2 incl = some [q2] := by
  unfold Cpe.resolve
  simp only [hv2, hp2]
  rw [if_pos hempty]

theorem concrete_query_fields (r : Cpe.CpeRow) :
    (∀ i < 11, (["a", "vendor", "*", "*", "*", "*", "*", "*", "*", "*", "*"] :
        List String).getD i "" ≠ "*" →
      Cpe.columnValue r ((Cpe.columnsFor "23").getD i "") =
        some ((["a", "vendor", "*", "*", "*", "*", "*", "*", "*", "*", "*"] :
          List String).getD i "")) ↔
    (r.part = "a" ∧ r.vendor = "vendor") := by
  constructor
  · intro h
    have h0 := h 0 (by omega) (by decide)
    have h1 := h 1 (by omega) (by decide)
    simp [Cpe.columnValue, Cpe.columnsFor] at h0 h1
    exact ⟨h0, h1⟩
  · rintro ⟨hp1, hv1⟩
    intro i hi hne
    interval_cases i <;>
      first
        | exact absurd hne (by decide)
        | simp [Cpe.columnValue, Cpe.columnsFor, hp1, hv1]
end NetworkTools
namespace NetworkTools

/-- C7 (amended). -/
theorem C7_resolve_wildcard_union (db : List Cpe.CpeRow) (q : String)
    (parsed : List String)
    (h23 : "cpe:2.3:".toList.isPrefixOf q.toList = true)
    (hp : Cpe.parse_cpe q = some parsed)
    (hnw : parsed.filter (fun x => x ≠ "*") ≠ []) :
    (∃ res, Cpe.resolve db q true = some res ∧
      ∀ x, (x ∈ res ↔ ∃ r ∈ db, x = r.name23 ∧
        (r.name23 = q ∨ ∀ i < 11, parsed.getD i "" ≠ "*" →
          Cpe.columnValue r ((Cpe.columnsFor "23").getD i "") =
            some (parsed.getD i "")))) ∧
    (∀ q2 v2 parsed2 incl, get_cpe_versionL q2.toList = some v2 →
      Cpe.parse_cpe q2 = some parsed2 →
      parsed2.filter (fun x => x ≠ "*") = [] →
      Cpe.resolve db q2 incl = some [q2]) ∧
    (∃ res, Cpe.resolve db "cpe:2.3:a:vendor:*:*:*:*:*:*:*:*:*" true = some res ∧
      ∀ x, (x ∈ res ↔ ∃ r ∈ db, x = r.name23 ∧
        (r.name23 = "cpe:2.3:a:vendor:*:*:*:*:*:*:*:*:*" ∨
          (r.part = "a" ∧ r.vendor = "vendor")))) := by
  refine ⟨resolve23_spec db q parsed h23 hp hnw, ?_, ?_⟩
  · intro q2 v2 parsed2 incl hv2 hp2 hempty
    exact resolve_all_wildcard db q2 v2 parsed2 incl hv2 hp2 hempty
  · rcases resolve23_spec db "cpe:2.3:a:vendor:*:*:*:*:*:*:*:*:*"
      ["a", "vendor", "*", "*", "*", "*", "*", "*", "*", "*", "*"]
      (by decide) (by decide) (by decide) with ⟨res, hres, hchar⟩
    refine ⟨res, hres, fun x => ?_⟩
    rw [hchar x]
    constructor
    · rintro ⟨r, hrdb, hx, hcase⟩
      exact ⟨r, hrdb, hx, hcase.imp id (fun hf => (concrete_query_fields r).mp hf)⟩
    · rintro ⟨r, hrdb, hx, hcase⟩
      exact ⟨r, hrdb, hx, hcase.imp id (fun hf => (concrete_query_fields r).mpr hf)⟩

end NetworkTools
namespace NetworkTools

/-- C7 counterexample. -/
theorem C7_counterexample :
    Cpe.parse_cpe "cpe:2.3:a:vendor:*:*:*:*:*:*:*:*:*:*" = none ∧
    Cpe.resolve
      [⟨"cpe:2.3:a:vendor:p:1:*:*:*:*:*:*:*", "cpe:/a:vendor:p:1", "t", false,
        "a", "vendor", "p", "1", "*", "*", "*", "*", "*", "*", "*"⟩]
      "cpe:2.3:a:vendor:*:*:*:*:*:*:*:*:*:*" true = none := by
  exact ⟨by decide, by decide⟩

/-- C7 witness. -/
theorem C7_witness :
    ∃ res, Cpe.resolve ([] : List Cpe.CpeRow)
        "cpe:2.3:a:vendor:*:*:*:*:*:*:*:*:*" true = some res ∧
      ∀ x, (x ∈ res ↔ ∃ r ∈ ([] : List Cpe.CpeRow), x = r.name23 ∧
        (r.name23 = "cpe:2.3:a:vendor:*:*:*:*:*:*:*:*:*" ∨
          ∀ i < 11, (["a", "vendor", "*", "*", "*", "*", "*", "*", "*", "*", "*"] :
              List String).getD i "" ≠ "*" →
            Cpe.columnValue r ((Cpe.columnsFor "23").getD i "") =
              some ((["a", "vendor", "*", "*", "*", "*", "*", "*", "*", "*", "*"] :
                List String).getD i ""))) :=
  (C7_resolve_wildcard_union [] "cpe:2.3:a:vendor:*:*:*:*:*:*:*:*:*"
    ["a", "vendor", "*", "*", "*", "*", "*", "*", "*", "*", "*"]
    (by decide) (by decide) (by decide)).1

end NetworkTools
namespace NetworkTools

/-- C1: ingesting a reject-marked entry deletes an existing row for its
    (year, number) key together with the cve_cpe and cve_references rows
    pointing at it and changes nothing else, and is a no-op when no row with
    that key exists. -/
theorem C1_reject_upsert (db : Cve.CveDb) (e : Cve.CveEntry)
    (hrej : Cve.isRejectSummary e.summary = true) :
    (∀ row, db.cve.find? (fun r => r.year == e.year && r.number == e.number) = some row →
      (Cve.load_cve_entry db e).cve = db.cve.filter (fun r => r.rowid != row.rowid) ∧
      (Cve.load_cve_entry db e).cve_cpe =
        db.cve_cpe.filter (fun l => l.id_cve != row.rowid) ∧
      (Cve.load_cve_entry db e).cve_references =
        db.cve_references.filter (fun l => l.id_cve != row.rowid) ∧
      (Cve.load_cve_entry db e).cve_cpe_names = db.cve_cpe_names ∧
      (Cve.load_cve_entry db e).cve_ref_urls = db.cve_ref_urls) ∧
    (db.cve.find? (fun r => r.year == e.year && r.number == e.number) = none →
      Cve.load_cve_entry db e = db) := by
  constructor
  · intro row hfind
    unfold Cve.load_cve_entry
    simp only [hfind, hrej, if_true]
    unfold Cve.deleteCveCascade
    exact ⟨rfl, rfl, rfl, rfl, rfl⟩
  · intro hfind
    unfold Cve.load_cve_entry
    simp only [hfind, hrej, if_true]

/-- C1 witness. -/
theorem C1_witness :
    (Cve.load_cve_entry
        ⟨[⟨1, 2020, 1234, none, none, none, none, none, none, some "old"⟩,
          ⟨2, 2021, 7, none, none, none, none, none, none, none⟩],
         [⟨1, "cpe:/a:v:p"⟩],
         [⟨1, 1⟩, ⟨2, 1⟩],
         [⟨1, "http://x"⟩],
         [⟨1, 1⟩]⟩
        ⟨2020, 1234, none, none, none, none, none, none,
         some "** REJECT **  DO NOT USE", ["http://y"], ["cpe:/a:v:q"]⟩).cve =
      [⟨2, 2021, 7, none, none, none, none, none, none, none⟩] ∧
    (Cve.load_cve_entry
        ⟨[⟨1, 2020, 1234, none, none, none, none, none, none, some "old"⟩,
          ⟨2, 2021, 7, none, none, none, none, none, none, none⟩],
         [⟨1, "cpe:/a:v:p"⟩],
         [⟨1, 1⟩, ⟨2, 1⟩],
         [⟨1, "http://x"⟩],
         [⟨1, 1⟩]⟩
        ⟨2020, 1234, none, none, none, none, none, none,
         some "** REJECT **  DO NOT USE", ["http://y"], ["cpe:/a:v:q"]⟩).cve_cpe =
      [⟨2, 1⟩] := by
  have h := (C1_reject_upsert
    ⟨[⟨1, 2020, 1234, none, none, none, none, none, none, some "old"⟩,
      ⟨2, 2021, 7, none, none, none, none, none, none, none⟩],
     [⟨1, "cpe:/a:v:p"⟩],
     [⟨1, 1⟩, ⟨2, 1⟩],
     [⟨1, "http://x"⟩],
     [⟨1, 1⟩]⟩
    ⟨2020, 1234, none, none, none, none, none, none,
     some "** REJECT **  DO NOT USE", ["http://y"], ["cpe:/a:v:q"]⟩
    (by decide)).1
    ⟨1, 2020, 1234, none, none, none, none, none, none, some "old"⟩ (by decide)
  refine ⟨?_, ?_⟩
  · rw [h.1]
    decide
  · rw [h.2.1]
    decide

end NetworkTools
namespace NetworkTools

/-- C4: when the busy flag is clear, a failing body rolls the store back to
    its pre-call state and re-raises the original exception, and a
    succeeding body commits exactly the body's final state. -/
theorem C4_transaction_rollback_commit {σ α : Type} (fn : σ → Except PyExc (σ × α))
    (s : StoreState σ) (h : s.busy = false) :
    (∀ e, fn s.db = Except.error e →
      _transaction fn s = (Except.error e, { db := s.db, busy := false })) ∧
    (∀ db2 r, fn s.db = Except.ok (db2, r) →
      _transaction fn s = (Except.ok r, { db := db2, busy := false })) := by
  constructor
  · intro e he
    unfold _transaction
    rw [if_neg (by simp [h])]
    rw [he]
  · intro db2 r hok
    unfold _transaction
    rw [if_neg (by simp [h])]
    rw [hok]

/-- C4 witness. -/
theorem C4_transaction_witness :
    _transaction (fun _ : Nat => (Except.error (PyExc.other "boom") : Except PyExc (Nat × Nat)))
      ⟨7, false⟩ = (Except.error (PyExc.other "boom"), ⟨7, false⟩) ∧
    _transaction (fun n : Nat => (Except.ok (n + 1, n) : Except PyExc (Nat × Nat)))
      ⟨7, false⟩ = (Except.ok 7, ⟨8, false⟩) := by
  constructor
  · exact (C4_transaction_rollback_commit _ _ rfl).1 _ rfl
  · exact (C4_transaction_rollback_commit _ _ rfl).2 _ _ rfl

/-- C5: a transactional call on a store whose busy flag is set fails with
    the busy error at once — for every wrapped operation, so the body is
    never consulted — and leaves the store state untouched. -/
theorem C5_busy_guard {σ α : Type} (fn : σ → Except PyExc (σ × α)) (s : StoreState σ)
    (h : s.busy = true) :
    _transaction fn s = (Except.error PyExc.storeBusy, s) := by
  unfold _transaction
  rw [if_pos (by rw [h])]

/-- C5 witness. -/
theorem C5_busy_guard_witness :
    _transaction (fun n : Nat => (Except.ok (n + 1, n) : Except PyExc (Nat × Nat)))
      ⟨7, true⟩ = (Except.error PyExc.storeBusy, ⟨7, true⟩) :=
  C5_busy_guard _ _ rfl

/-- C10: whatever events preceded it, once the loop body handles the end of
    an entry element it clears the root, so no completed child subtree stays
    retained — memory does not accumulate with the number of records. -/
theorem C10_streaming_release (evs : List Ingest.Ev) (s : Ingest.IngestState) :
    (Ingest.run (evs ++ [Ingest.Ev.stop true]) s).retained = 0 := by
  unfold Ingest.run
  rw [List.foldl_append]
  simp [Ingest.step]

end NetworkTools
namespace NetworkTools

/-- Replacing a watermark row leaves exactly one row for that filename. -/
theorem filesReplace_unique (fs : List Fetch.FileRow) (nr : Fetch.FileRow) :
    (Fetch.filesReplace fs nr).filter (fun r => r.filename == nr.filename) = [nr] := by
  unfold Fetch.filesReplace
  rw [List.filter_append]
  have h1 : (fs.filter (fun r => r.filename != nr.filename)).filter
      (fun r => r.filename == nr.filename) = [] := by
    rw [List.filter_filter]
    apply List.filter_eq_nil_iff.mpr
    intro a _
    simp [bne]
  rw [h1]
  simp

/-- C6 (amended): conditional-fetch behaviour of __download when no usable
    local pre-staged file exists.  A 304 against a stored watermark returns
    Unchanged with no file write and no watermark change; a 304 without a
    watermark re-raises; a successful download writes the file and stores
    one replaced watermark row whose time keeps the previously stored value
    when one existed (the fresh file's write time only when none did) and
    whose string comes from the Last-Modified header when present, falling
    back to a formatted form of that time. -/
theorem C6_fetch_watermark (env : Fetch.FetchEnv) (files : List Fetch.FileRow)
    (xf : String) (row : Fetch.FileRow)
    (hlocal : env.localFile = none) :
    (files.find? (fun r => r.filename == xf) = some row →
      row.last_modified ≠ 0 → row.last_modified_string ≠ "" →
      env.respond (some row.last_modified_string) = Fetch.HttpResp.err 304 →
      Fetch.download env files xf = ⟨Except.ok none, files, false, false⟩) ∧
    (files.find? (fun r => r.filename == xf) = none →
      env.respond none = Fetch.HttpResp.err 304 →
      Fetch.download env files xf =
        ⟨Except.error (Fetch.DlErr.httpError 304), files, false, false⟩) ∧
    (∀ lm, files.find? (fun r => r.filename == xf) = some row →
      row.last_modified ≠ 0 → row.last_modified_string ≠ "" →
      env.respond (some row.last_modified_string) = Fetch.HttpResp.ok lm →
      env.writeFails = false →
      Fetch.download env files xf =
        ⟨Except.ok (some Fetch.ParserTag.fromDownload),
         Fetch.filesReplace files
           ⟨xf, row.last_modified,
            if Fetch.truthyStr lm then lm.getD ""
            else Fetch.asctime_gmtime row.last_modified⟩,
         true, false⟩) ∧
    (∀ lm, files.find? (fun r => r.filename == xf) = none →
      env.respond none = Fetch.HttpResp.ok lm →
      env.writeFails = false →
      Fetch.download env files xf =
        ⟨Except.ok (some Fetch.ParserTag.fromDownload),
         Fetch.filesReplace files
           ⟨xf, env.downloadMtime,
            if Fetch.truthyStr lm then lm.getD ""
            else Fetch.asctime_gmtime env.downloadMtime⟩,
         true, false⟩) ∧
    (∀ (fs : List Fetch.FileRow) (nr : Fetch.FileRow),
      (Fetch.filesReplace fs nr).filter (fun r => r.filename == nr.filename) = [nr]) := by
  refine ⟨?_, ?_, ?_, ?_, fun fs nr => filesReplace_unique fs nr⟩
  · intro hfind hlm hlms hresp
    unfold Fetch.download
    simp only [hfind, hlocal, Option.map_some']
    rw [if_neg (by simp [Fetch.truthyNat])]
    rw [if_pos (by simp [Fetch.truthyStr, hlms])]
    simp only [hresp]
    rw [if_neg (by simp [Fetch.truthyNat, hlm])]
  · intro hfind hresp
    unfold Fetch.download
    simp only [hfind, hlocal, Option.map_none']
    rw [if_neg (by simp [Fetch.truthyNat])]
    rw [if_neg (by simp [Fetch.truthyStr])]
    simp only [hresp]
    rw [if_pos (by simp [Fetch.truthyNat])]
  · intro lm hfind hlm hlms hresp hwf
    unfold Fetch.download
    simp only [hfind, hlocal, Option.map_some']
    rw [if_neg (by simp [Fetch.truthyNat])]
    rw [if_pos (by simp [Fetch.truthyStr, hlms])]
    simp only [hresp]
    rw [if_neg (by rw [hwf]; exact Bool.false_ne_true)]
    rw [if_neg (by simp [Fetch.truthyNat, hlm])]
    by_cases hl : Fetch.truthyStr lm = true
    · rw [if_neg (by simp [hl]), if_pos hl]
      rfl
    · rw [if_pos (by simp [hl]), if_neg (by simp [hl])]
      rfl
  · intro lm hfind hresp hwf
    unfold Fetch.download
    simp only [hfind, hlocal, Option.map_none']
    rw [if_neg (by simp [Fetch.truthyNat])]
    rw [if_neg (by simp [Fetch.truthyStr])]
    simp only [hresp]
    rw [if_neg (by rw [hwf]; exact Bool.false_ne_true)]
    rw [if_pos (by simp [Fetch.truthyNat])]
    by_cases hl : Fetch.truthyStr lm = true
    · rw [if_neg (by simp [hl]), if_pos hl]
    · rw [if_pos (by simp [hl]), if_neg (by simp [hl])]

end NetworkTools
namespace NetworkTools

/-- C6 counterexample: server answers 200 without a Last-Modified header
    while a watermark (time 5) is already stored; the claim says the new
    watermark is taken from the local file's write time (9), but the code
    keeps the old stored time 5 in the replaced row. -/
theorem C6_counterexample :
    (Fetch.download ⟨none, fun _ => Fetch.HttpResp.ok none, 9, false⟩
      [⟨"f.xml", 5, "T5"⟩] "f.xml").files = [⟨"f.xml", 5, "gmtime:5"⟩] ∧
    [(⟨"f.xml", 5, "gmtime:5"⟩ : Fetch.FileRow)] ≠ [⟨"f.xml", 9, "gmtime:9"⟩] ∧
    (Fetch.download ⟨none, fun _ => Fetch.HttpResp.ok none, 9, false⟩
      [⟨"f.xml", 5, "T5"⟩] "f.xml").retval =
      Except.ok (some Fetch.ParserTag.fromDownload) := by
  refine ⟨by decide, by decide, rfl⟩

/-- C6 witness: a 304 answer against the stored watermark "T5" leaves the
    store untouched and reports no new data. -/
theorem C6_fetch_witness :
    Fetch.download ⟨none, fun _ => Fetch.HttpResp.err 304, 9, false⟩
      [⟨"f.xml", 5, "T5"⟩] "f.xml" =
      ⟨Except.ok none, [⟨"f.xml", 5, "T5"⟩], false, false⟩ :=
  (C6_fetch_watermark ⟨none, fun _ => Fetch.HttpResp.err 304, 9, false⟩
    [⟨"f.xml", 5, "T5"⟩] "f.xml" ⟨"f.xml", 5, "T5"⟩ rfl).1
    (by decide) (by decide) (by decide) rfl

end NetworkTools
